import Mathlib

/-!
Verification development for LichessTradingBoard (src/LichessTradingBoard.py).

The program turns a reverse-chronological stream of game records into a daily
OHLCV candlestick dataframe.  We shallowly embed the classes and methods of
the source file:

- class Day (lines 72-100): the per-day accumulator, with fields
  date/close/open/high/low/volume, the constructor, update() and to_list().
  Python field `open` is a Lean keyword, so it is called `open_` here.
- the pandas dataframe: modelled as a `Frame` holding a column-name list and
  an association list from the date index to a row of cells.  A cell is a
  `Value`: either an int (before astype) or a float tagged value (after
  astype / after read_csv).  The floats that occur in this program are exact
  integers (ratings and counts), so a float cell carries an `Int`.
- LichessTradingBoard.fetch_games (lines 134-155): the streaming loop over
  decoded observations (date, rating before, rating after), the one-slot
  deque buffer, the df.loc merges, and the final sort_index + astype(float).
  Python exceptions (IndexError on an empty deque, AssertionError from
  to_list) become `Except.error`.
- LichessTradingBoard.get_rating (lines 157-172): rating resolution from a
  raw game record; dict KeyError becomes `Except.error`, and the Python
  substring test `self.user in players["white"]["user"]["id"]` is modelled
  by `strIn`.
- get_panda (lines 115-128) / save_df (lines 130-132): persistence.  The
  file system is modelled as `Option` of a file content; the CSV text
  produced by to_csv / consumed by read_csv is modelled at cell granularity
  as a list of lines, each line a list of cells, each cell a list of
  characters, with decimal printing and parsing spelled out.
-/

/-- Cell of the dataframe: an int cell (as inserted by df.loc from to_list)
or a float cell (after astype(float) or read_csv).  Every float occurring in
the program is integral, so it is carried as an Int. -/
inductive Value where
  | intV (n : Int)
  | floatV (x : Int)
deriving DecidableEq

/-- Value.isFloat is true on float-typed cells. -/
def Value.isFloat : Value → Bool
  | .floatV _ => true
  | .intV _ => false

/-- astype(float) on one cell: ints become floats, floats stay. -/
def Value.toFloat : Value → Value
  | .intV n => .floatV n
  | .floatV x => .floatV x

/-- Class Day, lines 72-87 of the source.  The date is modelled as a natural
number (the timestamp is already truncated to day granularity at line 141).
The Python field `open` is `open_` (Lean keyword); it is Optional, starting
at None in the constructor. -/
structure Day where
  date : Nat
  close : Int
  open_ : Option Int
  high : Int
  low : Int
  volume : Int
deriving DecidableEq

/-- Day.update, lines 89-96: overwrite open with `before`, fold before/after
into high and low, bump volume.  The assert at line 93 compares high with
max(before, after) right after high was just raised to at least that, so it
never fires and is not modelled. -/
def Day.update (d : Day) (before after : Int) : Day :=
  { d with
    open_ := some before
    high := max d.high (max before after)
    low := min d.low (min before after)
    volume := d.volume + 1 }

/-- Day constructor, lines 80-87: close is a parameter, open starts None,
high is seeded with the sentinel 0 and low with the sentinel 3999, volume
with 0, then update(before, after) runs once. -/
def Day.init (date : Nat) (close before after : Int) : Day :=
  Day.update ⟨date, close, none, 0, 3999, 0⟩ before after

/-- Day.to_list, lines 98-100: `assert self.open` is a Python truthiness
test, so it fails (AssertionError, modelled as none) both when open is None
and when open is the integer 0; otherwise the row
[open, high, low, close, volume] is returned. -/
def Day.to_list (d : Day) : Option (List Int) :=
  match d.open_ with
  | none => none
  | some o => if o = 0 then none else some [o, d.high, d.low, d.close, d.volume]

/-- One fold step of the aggregation: feed one observation (before, after)
into the pending Day, as done at line 144. -/
def updStep (d : Day) (p : Int × Int) : Day := d.update p.1 p.2

/-- The bar built for a single day: the first-delivered observation `first`
creates the Day exactly as line 147 does (close := after of that
observation), and every later same-day observation in `rest` is folded in
with update, in delivery order. -/
def foldDay (date : Nat) (first : Int × Int) (rest : List (Int × Int)) : Day :=
  rest.foldl updStep (Day.init date first.2 first.1 first.2)

/-- All before/after rating values carried by a list of observations, in
delivery order. -/
def ratings (l : List (Int × Int))  : List Int :=
  l.flatMap (fun p => [p.1, p.2])

/-- The pandas dataframe: column names plus rows as an association list
from the date index to the list of cells. -/
structure Frame where
  cols : List String
  rows : List (Nat × List Value)
deriving DecidableEq

/-- The empty dataframe created at line 126: columns Open, High, Low,
Close, Volume and an empty date index. -/
def emptyFrame : Frame :=
  ⟨["Open", "High", "Low", "Close", "Volume"], []⟩

/-- df.loc[date] = row (line 152): overwrite the row at an existing index
entry, else append a new row at the end. -/
def Frame.setRow (f : Frame) (date : Nat) (row : List Value) : Frame :=
  { f with rows :=
      if f.rows.any (fun p => decide (p.1 = date)) then
        f.rows.map (fun p => if p.1 = date then (date, row) else p)
      else
        f.rows ++ [(date, row)] }

/-- df.loc[date] = finished_day.to_list(): the inserted cells are ints. -/
def Frame.setIntRow (f : Frame) (date : Nat) (row : List Int) : Frame :=
  f.setRow date (row.map Value.intV)

/-- df.sort_index() (line 154): stable sort of the rows by ascending date. -/
def Frame.sortIndex (f : Frame) : Frame :=
  { f with rows := f.rows.mergeSort (fun a b => decide (a.1 ≤ b.1)) }

/-- df.astype(float) (line 155): every cell becomes a float. -/
def Frame.astype (f : Frame) : Frame :=
  { f with rows := f.rows.map (fun p => (p.1, p.2.map Value.toFloat)) }

/-- A dataframe built from the empty one by a sequence of df.loc row
merges, as fetch_games does. -/
def buildFrame (bars : List (Nat × List Int)) : Frame :=
  bars.foldl (fun f p => f.setIntRow p.1 p.2) emptyFrame

/-- One player side of a raw game record, with the dict entries the code
looks up: players[side]["user"]["id"] (collapsed to one optional field),
players[side]["rating"], players[side].get("ratingDiff", 0).  A `none`
models a missing key (KeyError on lookup). -/
structure PlayerRec where
  userId : Option String
  rating : Option Int
  ratingDiff : Option Int
deriving DecidableEq

/-- A raw game record: game["players"] with its white and black sides. -/
structure GameRec where
  players : Option (PlayerRec × PlayerRec)
deriving DecidableEq

/-- Python substring containment `needle in haystack` on strings. -/
def strIn (needle haystack : String) : Bool :=
  (List.range (haystack.data.length + 1)).any
    (fun i => ((haystack.data.drop i).take needle.data.length) == needle.data)

/-- LichessTradingBoard.get_rating, lines 157-172: if the user name occurs
as a substring of the white id, return white's (rating, rating + diff);
otherwise return black's pair without any check of the black id.  A missing
key raises (KeyError caught and re-raised as Exception at line 171),
modelled as Except.error. -/
def get_rating (user : String) (game : GameRec) : Except String (Int × Int) :=
  match game.players with
  | none => .error "KeyError players"
  | some (white, black) =>
    match white.userId with
    | none => .error "KeyError user id"
    | some wid =>
      if strIn user wid then
        match white.rating with
        | none => .error "KeyError rating"
        | some r => .ok (r, r + white.ratingDiff.getD 0)
      else
        match black.rating with
        | none => .error "KeyError rating"
        | some r => .ok (r, r + black.ratingDiff.getD 0)

/-- Loop state of fetch_games: the deque buffer of pending Days and the
dataframe being filled. -/
structure FetchState where
  buffer : List Day
  df : Frame
deriving DecidableEq

/-- One iteration of the fetch_games loop (lines 139-153) on an already
decoded observation (date, before, after): if the buffer holds exactly one
Day of the same date, update it; otherwise append a fresh Day (line 147,
with close := after).  Then, if the front of the deque has a different
date, pop it and merge its to_list row into the dataframe.  A failing
to_list assert surfaces as an error; indexing an empty deque would too. -/
def stepGame (st : FetchState) (obs : Nat × Int × Int) : Except String FetchState :=
  let date := obs.1
  let before := obs.2.1
  let after := obs.2.2
  let buffer :=
    match st.buffer with
    | [d] =>
      if d.date = date then [d.update before after]
      else [d, Day.init date after before after]
    | bs => bs ++ [Day.init date after before after]
  match buffer with
  | [] => .error "IndexError"
  | d0 :: rest =>
    if d0.date ≠ date then
      match d0.to_list with
      | none => .error "AssertionError"
      | some row => .ok ⟨rest, st.df.setIntRow d0.date row⟩
    else
      .ok ⟨buffer, st.df⟩

/-- The fetch_games loop over the whole observation stream. -/
def fetchLoop : FetchState → List (Nat × Int × Int) → Except String FetchState
  | st, [] => .ok st
  | st, g :: gs =>
    match stepGame st g with
    | .error e => .error e
    | .ok st2 => fetchLoop st2 gs

/-- LichessTradingBoard.fetch_games, lines 134-155, over the stream of
already decoded observations: run the loop from an empty buffer, then
sort_index and astype(float).  Note that nothing flushes the Day still
pending in the buffer when the stream ends. -/
def fetch_games (df : Frame) (games : List (Nat × Int × Int)) : Except String Frame :=
  match fetchLoop ⟨[], df⟩ games with
  | .error e => .error e
  | .ok st => .ok st.df.sortIndex.astype

/-- Decimal printing of a natural number, most significant digit first. -/
def natToChars (n : Nat) : List Char :=
  if n = 0 then ['0'] else ((Nat.digits 10 n).reverse).map Nat.digitChar

/-- Digit value of a decimal character. -/
def charToDigit (c : Char) : Nat := c.toNat - 48

/-- Decimal parsing of a cell: nonempty all-digit strings only. -/
def parseNat (cs : List Char) : Option Nat :=
  if cs = [] then none
  else if cs.all Char.isDigit then
    some (Nat.ofDigits 10 ((cs.map charToDigit).reverse))
  else none

/-- Decimal printing of an integer (minus sign plus digits). -/
def intToChars (n : Int) : List Char :=
  if n < 0 then '-' :: natToChars n.natAbs else natToChars n.natAbs

/-- Decimal parsing of an optionally signed integer. -/
def parseInt (cs : List Char) : Option Int :=
  match cs with
  | [] => none
  | c :: rest =>
    if c = '-' then
      match parseNat rest with
      | some n => some (-(n : Int))
      | none => none
    else
      match parseNat (c :: rest) with
      | some n => some ((n : Int))
      | none => none

/-- Textual form of one cell as df.to_csv writes it: an integral float
prints with a trailing .0, an int prints as plain decimal. -/
def Value.toCell : Value → List Char
  | .intV n => intToChars n
  | .floatV x => intToChars x ++ ['.', '0']

/-- Numeric cell parsing as pd.read_csv performs it on a value column: the
result is always a float cell, whether or not the text carries a .0
suffix. -/
def parseCell (cs : List Char) : Option Value :=
  match cs.reverse with
  | '0' :: '.' :: rest => (parseInt rest.reverse).map Value.floatV
  | _ => (parseInt cs).map Value.floatV

/-- Parse every value cell of a line. -/
def parseCells : List (List Char) → Option (List Value)
  | [] => some []
  | c :: cs =>
    match parseCell c, parseCells cs with
    | some v, some vs => some (v :: vs)
    | _, _ => none

/-- Parse one data line: the leading cell is the date index
(index_col=0, parse_dates=True), the remaining cells are values. -/
def parseLine (line : List (List Char)) : Option (Nat × List Value) :=
  match line with
  | [] => none
  | dateCell :: valueCells =>
    match parseNat dateCell, parseCells valueCells with
    | some d, some vals => some (d, vals)
    | _, _ => none

/-- Parse every data line of the file body. -/
def parseLines : List (List (List Char)) → Option (List (Nat × List Value))
  | [] => some []
  | l :: ls =>
    match parseLine l, parseLines ls with
    | some r, some rs => some (r :: rs)
    | _, _ => none

/-- df.to_csv (line 132): a header line holding the index name Date and the
column names, then one line per row with the date index first. -/
def Frame.to_csv (f : Frame) : List (List (List Char)) :=
  ("Date".data :: f.cols.map String.data) ::
    f.rows.map (fun p => natToChars p.1 :: p.2.map Value.toCell)

/-- pd.read_csv with index_col=0 (line 122): the first header cell is the
index name, the rest are the column names; every data line is parsed with
its leading cell as the date index. -/
def parseCsv (content : List (List (List Char))) : Option Frame :=
  match content with
  | [] => none
  | header :: body =>
    match header with
    | [] => none
    | _ :: cols =>
      match parseLines body with
      | some rows => some ⟨cols.map String.mk, rows⟩
      | none => none

/-- LichessTradingBoard.get_panda, lines 115-128: if the file exists and no
forced update is requested, read it back; otherwise return the empty
dataframe.  The file system is an Option of the file content; an
unparseable existing file is a pandas error. -/
def get_panda (file : Option (List (List (List Char)))) (update : Bool) : Except String Frame :=
  match file with
  | some content =>
    if update then .ok emptyFrame
    else
      match parseCsv content with
      | some f => .ok f
      | none => .error "ParserError"
  | none => .ok emptyFrame

/-- LichessTradingBoard.save_df, lines 130-132: write the dataframe as CSV;
the resulting file content. -/
def save_df (f : Frame) : List (List (List Char)) :=
  f.to_csv

/-!
Helper lemmas on the fold of Day.update over a list of same-day
observations.
-/

theorem foldl_updStep_close (l : List (Int × Int)) :
    ∀ d : Day, (l.foldl updStep d).close = d.close := by
  induction l with
  | nil => intro d; rfl
  | cons p t ih => intro d; rw [List.foldl_cons, ih]; rfl

theorem foldl_updStep_volume (l : List (Int × Int)) :
    ∀ d : Day, (l.foldl updStep d).volume = d.volume + (l.length : Int) := by
  induction l with
  | nil => intro d; simp
  | cons p t ih =>
    intro d
    rw [List.foldl_cons, ih]
    simp [updStep, Day.update]
    omega

theorem foldl_updStep_open (l : List (Int × Int)) :
    ∀ d : Day, (l.foldl updStep d).open_ =
      (l.map (fun p => some p.1)).getLastD d.open_ := by
  induction l with
  | nil => intro d; rfl
  | cons p t ih =>
    intro d
    rw [List.foldl_cons, ih, List.map_cons, List.getLastD_cons]
    rfl

theorem getLastD_map_fst (l : List (Int × Int)) :
    ∀ a : Int × Int,
      (l.map (fun p => some p.1)).getLastD (some a.1) = some ((l.getLastD a).1) := by
  induction l with
  | nil => intro a; rfl
  | cons p t ih =>
    intro a
    rw [List.map_cons, List.getLastD_cons, List.getLastD_cons]
    exact ih p

theorem ratings_cons (p : Int × Int) (t : List (Int × Int)) :
    ratings (p :: t) = p.1 :: p.2 :: ratings t := by
  simp [ratings]

theorem foldl_updStep_high (l : List (Int × Int)) :
    ∀ d : Day, (l.foldl updStep d).high =
      (ratings l).foldl (fun a r => max a r) d.high := by
  induction l with
  | nil => intro d; rfl
  | cons p t ih =>
    intro d
    rw [List.foldl_cons, ih, ratings_cons, List.foldl_cons, List.foldl_cons]
    have : max (max d.high p.1) p.2 = max d.high (max p.1 p.2) := max_assoc _ _ _
    rw [this]
    rfl

theorem foldl_updStep_low (l : List (Int × Int)) :
    ∀ d : Day, (l.foldl updStep d).low =
      (ratings l).foldl (fun a r => min a r) d.low := by
  induction l with
  | nil => intro d; rfl
  | cons p t ih =>
    intro d
    rw [List.foldl_cons, ih, ratings_cons, List.foldl_cons, List.foldl_cons]
    have : min (min d.low p.1) p.2 = min d.low (min p.1 p.2) := min_assoc _ _ _
    rw [this]
    rfl

theorem le_foldl_max (l : List Int) :
    ∀ a : Int, a ≤ l.foldl (fun x r => max x r) a := by
  induction l with
  | nil => intro a; simp
  | cons r t ih =>
    intro a
    rw [List.foldl_cons]
    exact le_trans (le_max_left a r) (ih (max a r))

theorem mem_le_foldl_max (l : List Int) :
    ∀ a : Int, ∀ r ∈ l, r ≤ l.foldl (fun x s => max x s) a := by
  induction l with
  | nil => intro a r hr; simp at hr
  | cons q t ih =>
    intro a r hr
    rw [List.foldl_cons]
    rcases List.mem_cons.mp hr with h | h
    · subst h
      exact le_trans (le_max_right a r) (le_foldl_max t (max a r))
    · exact ih (max a q) r h

theorem foldl_max_mem (l : List Int) :
    ∀ a : Int, l.foldl (fun x s => max x s) a ∈ a :: l := by
  induction l with
  | nil => intro a; simp
  | cons q t ih =>
    intro a
    rw [List.foldl_cons]
    have h := ih (max a q)
    rcases List.mem_cons.mp h with h1 | h1
    · rcases max_choice a q with h2 | h2
      · rw [h1, h2]; exact List.mem_cons_self _ _
      · rw [h1, h2]
        exact List.mem_cons_of_mem _ (List.mem_cons_self _ _)
    · exact List.mem_cons_of_mem _ (List.mem_cons_of_mem _ h1)

theorem foldl_min_le (l : List Int) :
    ∀ a : Int, l.foldl (fun x r => min x r) a ≤ a := by
  induction l with
  | nil => intro a; simp
  | cons r t ih =>
    intro a
    rw [List.foldl_cons]
    exact le_trans (ih (min a r)) (min_le_left a r)

theorem foldl_min_le_mem (l : List Int) :
    ∀ a : Int, ∀ r ∈ l, l.foldl (fun x s => min x s) a ≤ r := by
  induction l with
  | nil => intro a r hr; simp at hr
  | cons q t ih =>
    intro a r hr
    rw [List.foldl_cons]
    rcases List.mem_cons.mp hr with h | h
    · subst h
      exact le_trans (foldl_min_le t (min a r)) (min_le_right a r)
    · exact ih (min a q) r h

theorem foldl_min_mem (l : List Int) :
    ∀ a : Int, l.foldl (fun x s => min x s) a ∈ a :: l := by
  induction l with
  | nil => intro a; simp
  | cons q t ih =>
    intro a
    rw [List.foldl_cons]
    have h := ih (min a q)
    rcases List.mem_cons.mp h with h1 | h1
    · rcases min_choice a q with h2 | h2
      · rw [h1, h2]; exact List.mem_cons_self _ _
      · rw [h1, h2]
        exact List.mem_cons_of_mem _ (List.mem_cons_self _ _)
    · exact List.mem_cons_of_mem _ (List.mem_cons_of_mem _ h1)

theorem foldDay_open (date : Nat) (first : Int × Int) (rest : List (Int × Int)) :
    (foldDay date first rest).open_ = some ((rest.getLastD first).1) := by
  rw [foldDay, foldl_updStep_open]
  have : (Day.init date first.2 first.1 first.2).open_ = some first.1 := rfl
  rw [this]
  exact getLastD_map_fst rest first

/-- C3 counterexample: a day folded from exactly one observation with
rating_before 1450 and rating_after 1480 has open 1450 but close 1480, so
the claimed open == close fails. -/
theorem day_single_obs_open_ne_close :
    (foldDay 2 ((1450 : Int), (1480 : Int)) []).open_ ≠
      some (foldDay 2 ((1450 : Int), (1480 : Int)) []).close := by
  decide

/-- C3 (amended): for a day with exactly one observation, open equals the
rating before, close equals the rating after (they coincide only when the
rating did not change), volume is 1, and, provided the rating before lies
within the sentinel bounds 0 and 3999, high and low are the max and min of
the before/after pair. -/
theorem day_single_obs (date : Nat) (b a : Int)
    (hb0 : 0 ≤ b) (hb1 : b ≤ 3999) :
    (foldDay date (b, a) []).open_ = some b ∧
    (foldDay date (b, a) []).close = a ∧
    (foldDay date (b, a) []).volume = 1 ∧
    (foldDay date (b, a) []).high = max b a ∧
    (foldDay date (b, a) []).low = min b a := by
  refine ⟨rfl, rfl, rfl, ?_, ?_⟩
  · show max 0 (max b a) = max b a
    exact max_eq_right (le_trans hb0 (le_max_left b a))
  · show min 3999 (min b a) = min b a
    exact min_eq_right (le_trans (min_le_left b a) hb1)

/-- Witness for the amended C3 theorem at the single observation
(before 1450, after 1480). -/
theorem day_single_obs_witness :
    (0 : Int) ≤ 1450 ∧ (1450 : Int) ≤ 3999 ∧
    ((foldDay 2 ((1450 : Int), (1480 : Int)) []).open_ = some 1450 ∧
      (foldDay 2 ((1450 : Int), (1480 : Int)) []).close = 1480 ∧
      (foldDay 2 ((1450 : Int), (1480 : Int)) []).volume = 1 ∧
      (foldDay 2 ((1450 : Int), (1480 : Int)) []).high = max 1450 1480 ∧
      (foldDay 2 ((1450 : Int), (1480 : Int)) []).low = min 1450 1480) :=
  ⟨by decide, by decide, day_single_obs 2 1450 1480 (by decide) (by decide)⟩

/-- C5: every bar built from at least one observation, with close seeded
from the first observation as at line 147, has a defined open o and
satisfies low ≤ min(o, close), max(o, close) ≤ high and 1 ≤ volume; the
property is established by the constructor and preserved by every
update. -/
theorem foldDay_invariants (date : Nat) (first : Int × Int) (rest : List (Int × Int)) :
    ∃ o, (foldDay date first rest).open_ = some o ∧
      (foldDay date first rest).low ≤ min o (foldDay date first rest).close ∧
      max o (foldDay date first rest).close ≤ (foldDay date first rest).high ∧
      1 ≤ (foldDay date first rest).volume := by
  have step : ∀ (l : List (Int × Int)) (d : Day),
      (∃ o, d.open_ = some o ∧ d.low ≤ min o d.close ∧
        max o d.close ≤ d.high ∧ 1 ≤ d.volume) →
      ∃ o, (l.foldl updStep d).open_ = some o ∧
        (l.foldl updStep d).low ≤ min o (l.foldl updStep d).close ∧
        max o (l.foldl updStep d).close ≤ (l.foldl updStep d).high ∧
        1 ≤ (l.foldl updStep d).volume := by
    intro l
    induction l with
    | nil => intro d h; exact h
    | cons p t ih =>
      intro d h
      rw [List.foldl_cons]
      apply ih
      obtain ⟨o, ho, hl, hh, hv⟩ := h
      have h1 : d.low ≤ d.close := le_trans hl (min_le_right o d.close)
      have h2 : d.close ≤ d.high := le_trans (le_max_right o d.close) hh
      refine ⟨p.1, rfl, ?_, ?_, ?_⟩
      · show min d.low (min p.1 p.2) ≤ min p.1 d.close
        exact le_min (le_trans (min_le_right _ _) (min_le_left p.1 p.2))
          (le_trans (min_le_left _ _) h1)
      · show max p.1 d.close ≤ max d.high (max p.1 p.2)
        exact max_le (le_trans (le_max_left p.1 p.2) (le_max_right _ _))
          (le_trans h2 (le_max_left _ _))
      · show (1 : Int) ≤ d.volume + 1
        exact le_trans hv (by omega)
  apply step
  refine ⟨first.1, rfl, ?_, ?_, ?_⟩
  · show min 3999 (min first.1 first.2) ≤ min first.1 first.2
    exact min_le_right _ _
  · show max first.1 first.2 ≤ max 0 (max first.1 first.2)
    exact le_max_right _ _
  · show (1 : Int) ≤ 0 + 1
    omega

/-- C10: the assert in to_list tests Python truthiness, so a day whose
chronologically first (last-delivered) observation entered with rating 0
has a defined open (some 0) and yet to_list raises AssertionError
(modelled as none). -/
theorem foldDay_zero_open_assert (date : Nat) (first : Int × Int)
    (rest : List (Int × Int)) (h : (rest.getLastD first).1 = 0) :
    (foldDay date first rest).open_ = some 0 ∧
    (foldDay date first rest).to_list = none := by
  have ho := foldDay_open date first rest
  rw [h] at ho
  refine ⟨ho, ?_⟩
  simp [Day.to_list, ho]

/-- Witness for the C10 theorem: a single observation entering with
rating 0. -/
theorem foldDay_zero_open_assert_witness :
    (([] : List (Int × Int)).getLastD ((0 : Int), (1500 : Int))).1 = 0 ∧
    ((foldDay 7 ((0 : Int), (1500 : Int)) []).open_ = some 0 ∧
      (foldDay 7 ((0 : Int), (1500 : Int)) []).to_list = none) :=
  ⟨rfl, foldDay_zero_open_assert 7 (0, 1500) [] rfl⟩

/-- C9: loading when no file exists yields the empty dataframe with
columns Open, High, Low, Close, Volume and no rows, for either value of
the update flag; a missing file is not an error. -/
theorem get_panda_missing_file (update : Bool) :
    get_panda none update = .ok ⟨["Open", "High", "Low", "Close", "Volume"], []⟩ :=
  rfl

/-- C7: merging the same bar (date-indexed row) into a dataframe twice in
succession equals merging it once; df.loc insert-or-overwrite is
idempotent per date. -/
theorem setRow_idempotent (f : Frame) (date : Nat) (row : List Value) :
    (f.setRow date row).setRow date row = f.setRow date row := by
  simp only [Frame.setRow]
  by_cases h : f.rows.any (fun p => decide (p.1 = date)) = true
  · rw [if_pos h]
    have hcomp : ((fun p : Nat × List Value => decide (p.1 = date)) ∘
        (fun p : Nat × List Value => if p.1 = date then (date, row) else p)) =
        fun p : Nat × List Value => decide (p.1 = date) := by
      funext p
      by_cases hp : p.1 = date <;> simp [hp]
    have hmap : (f.rows.map (fun p => if p.1 = date then (date, row) else p)).any
        (fun p => decide (p.1 = date)) = true := by
      rw [List.any_map, hcomp]
      exact h
    rw [if_pos hmap]
    congr 1
    rw [List.map_map]
    apply List.map_congr_left
    intro p _
    by_cases hp : p.1 = date <;> simp [hp]
  · rw [if_neg h]
    have hforall : ∀ p ∈ f.rows, p.1 ≠ date := by
      intro p hp hpd
      exact h (List.any_eq_true.mpr ⟨p, hp, by simp [hpd]⟩)
    have hany : (f.rows ++ [(date, row)]).any (fun p => decide (p.1 = date)) = true := by
      rw [List.any_append]
      simp
    rw [if_pos hany]
    congr 1
    rw [List.map_append]
    have h1 : f.rows.map (fun p => if p.1 = date then (date, row) else p) = f.rows := by
      conv_rhs => rw [← List.map_id f.rows]
      exact List.map_congr_left (fun p hp => by simp [hforall p hp])
    simp [h1]

/-- C1 is refuted on the code: fetch_games never flushes the Day still
pending in the buffer when the stream ends, so a stream covering one
single date emits no bar at all (the claim demands exactly one).  The
dataframe after the run is still empty. -/
theorem fetch_games_single_day_emits_nothing :
    fetch_games emptyFrame [(5, (1500 : Int), (1512 : Int))] = .ok emptyFrame := by
  have h : fetchLoop ⟨[], emptyFrame⟩ [(5, (1500 : Int), (1512 : Int))] =
      .ok ⟨[Day.init 5 1512 1500 1512], emptyFrame⟩ := rfl
  simp only [fetch_games, h]
  simp [Frame.sortIndex, Frame.astype, emptyFrame, List.mergeSort_nil]

/-- A fully populated game record in which the tracked player alice is on
neither side. -/
def gameNeither : GameRec :=
  ⟨some (⟨some "bob", some 1700, some 10⟩, ⟨some "carol", some 1600, some 10⟩)⟩

/-- C2 counterexample: on a fully populated record whose two sides are bob
and carol, resolving ratings for alice does not fail; the code silently
returns the black side ratings, refuting the claim that resolution fails
when the tracked player is on neither side. -/
theorem get_rating_neither_side_ok :
    strIn "alice" "bob" = false ∧ strIn "alice" "carol" = false ∧
    get_rating "alice" gameNeither = .ok (1600, 1610) :=
  ⟨by decide, by decide, rfl⟩

/-- C2 (amended): resolution raises only on a missing record field
(KeyError), never because the tracked player is absent: on a record with
players, white user id and both ratings present, get_rating never returns
an error, and when the user does not occur in the white id it returns the
black side pair (rating, rating + ratingDiff). -/
theorem get_rating_wellformed_never_fails (user : String) (g : GameRec)
    (w b : PlayerRec) (hp : g.players = some (w, b))
    (wid : String) (hw : w.userId = some wid)
    (wr : Int) (hwr : w.rating = some wr)
    (br : Int) (hbr : b.rating = some br) :
    (∀ e, get_rating user g ≠ .error e) ∧
    (strIn user wid = false →
      get_rating user g = .ok (br, br + b.ratingDiff.getD 0)) := by
  simp only [get_rating, hp, hw, hwr, hbr]
  by_cases hs : strIn user wid = true
  · simp [hs]
  · simp only [Bool.not_eq_true] at hs
    simp [hs]

/-- Witness for the amended C2 theorem: alice against the bob/carol
record. -/
theorem get_rating_wellformed_never_fails_witness :
    gameNeither.players =
      some (⟨some "bob", some 1700, some 10⟩, ⟨some "carol", some 1600, some 10⟩) ∧
    (⟨some "bob", some 1700, some 10⟩ : PlayerRec).userId = some "bob" ∧
    (⟨some "bob", some 1700, some 10⟩ : PlayerRec).rating = some 1700 ∧
    (⟨some "carol", some 1600, some 10⟩ : PlayerRec).rating = some 1600 ∧
    ((∀ e, get_rating "alice" gameNeither ≠ .error e) ∧
      (strIn "alice" "bob" = false →
        get_rating "alice" gameNeither = .ok (1600, 1600 + (some (10 : Int)).getD 0))) :=
  ⟨rfl, rfl, rfl, rfl,
    get_rating_wellformed_never_fails "alice" gameNeither
      ⟨some "bob", some 1700, some 10⟩ ⟨some "carol", some 1600, some 10⟩ rfl
      "bob" rfl 1700 rfl 1600 rfl⟩

/-- C4: folding a nonempty sequence of same-date observations in delivery
order yields one bar with volume the observation count, close the rating
after of the first-delivered observation, open the rating before of the
last-delivered observation, and, provided every rating lies in [0, 4000),
high and low the true maximum and minimum over all before/after values
(the sentinel seeding makes the high/low part conditional on that
bound). -/
theorem foldDay_same_date (date : Nat) (first : Int × Int) (rest : List (Int × Int))
    (hb : ∀ r ∈ ratings (first :: rest), 0 ≤ r ∧ r < 4000) :
    (foldDay date first rest).volume = (rest.length : Int) + 1 ∧
    (foldDay date first rest).close = first.2 ∧
    (foldDay date first rest).open_ = some ((rest.getLastD first).1) ∧
    ((foldDay date first rest).high ∈ ratings (first :: rest) ∧
      ∀ r ∈ ratings (first :: rest), r ≤ (foldDay date first rest).high) ∧
    ((foldDay date first rest).low ∈ ratings (first :: rest) ∧
      ∀ r ∈ ratings (first :: rest), (foldDay date first rest).low ≤ r) := by
  have hfirst1 : first.1 ∈ ratings (first :: rest) := by
    rw [ratings_cons]
    exact List.mem_cons_self _ _
  have hhigh : (foldDay date first rest).high
      = (ratings (first :: rest)).foldl (fun a r => max a r) 0 := by
    rw [ratings_cons, List.foldl_cons, List.foldl_cons, foldDay, foldl_updStep_high]
    have h0 : (Day.init date first.2 first.1 first.2).high = max (max 0 first.1) first.2 := by
      show max 0 (max first.1 first.2) = max (max 0 first.1) first.2
      exact (max_assoc 0 first.1 first.2).symm
    rw [h0]
  have hlow : (foldDay date first rest).low
      = (ratings (first :: rest)).foldl (fun a r => min a r) 3999 := by
    rw [ratings_cons, List.foldl_cons, List.foldl_cons, foldDay, foldl_updStep_low]
    have h0 : (Day.init date first.2 first.1 first.2).low = min (min 3999 first.1) first.2 := by
      show min 3999 (min first.1 first.2) = min (min 3999 first.1) first.2
      exact (min_assoc 3999 first.1 first.2).symm
    rw [h0]
  refine ⟨?_, ?_, foldDay_open date first rest, ⟨?_, ?_⟩, ⟨?_, ?_⟩⟩
  · rw [foldDay, foldl_updStep_volume]
    show (0 : Int) + 1 + (rest.length : Int) = (rest.length : Int) + 1
    omega
  · rw [foldDay, foldl_updStep_close]
    rfl
  · rw [hhigh]
    have hmem := foldl_max_mem (ratings (first :: rest)) 0
    rcases List.mem_cons.mp hmem with h0 | h0
    · have hub := mem_le_foldl_max (ratings (first :: rest)) 0 first.1 hfirst1
      rw [h0] at hub
      have : first.1 = 0 := le_antisymm hub (hb first.1 hfirst1).1
      rw [h0, ← this]
      exact hfirst1
    · exact h0
  · intro r hr
    rw [hhigh]
    exact mem_le_foldl_max (ratings (first :: rest)) 0 r hr
  · rw [hlow]
    have hmem := foldl_min_mem (ratings (first :: rest)) 3999
    rcases List.mem_cons.mp hmem with h0 | h0
    · have hlb := foldl_min_le_mem (ratings (first :: rest)) 3999 first.1 hfirst1
      rw [h0] at hlb
      have h4 : first.1 < 4000 := (hb first.1 hfirst1).2
      have : first.1 = 3999 := le_antisymm (by omega) hlb
      rw [h0, ← this]
      exact hfirst1
    · exact h0
  · intro r hr
    rw [hlow]
    exact foldl_min_le_mem (ratings (first :: rest)) 3999 r hr

/-- Witness for the C4 theorem on the two-observation day of the spec
scenario (first delivered (1500, 1512), then (1480, 1500)). -/
theorem foldDay_same_date_witness :
    (∀ r ∈ ratings (((1500 : Int), (1512 : Int)) :: [((1480 : Int), (1500 : Int))]),
      0 ≤ r ∧ r < 4000) ∧
    ((foldDay 3 (1500, 1512) [(1480, 1500)]).volume
        = (([((1480 : Int), (1500 : Int))].length : Int) + 1) ∧
      (foldDay 3 (1500, 1512) [(1480, 1500)]).close = 1512 ∧
      (foldDay 3 (1500, 1512) [(1480, 1500)]).open_
        = some (([((1480 : Int), (1500 : Int))].getLastD (1500, 1512)).1) ∧
      ((foldDay 3 (1500, 1512) [(1480, 1500)]).high
          ∈ ratings (((1500 : Int), (1512 : Int)) :: [((1480 : Int), (1500 : Int))]) ∧
        ∀ r ∈ ratings (((1500 : Int), (1512 : Int)) :: [((1480 : Int), (1500 : Int))]),
          r ≤ (foldDay 3 (1500, 1512) [(1480, 1500)]).high) ∧
      ((foldDay 3 (1500, 1512) [(1480, 1500)]).low
          ∈ ratings (((1500 : Int), (1512 : Int)) :: [((1480 : Int), (1500 : Int))]) ∧
        ∀ r ∈ ratings (((1500 : Int), (1512 : Int)) :: [((1480 : Int), (1500 : Int))]),
          (foldDay 3 (1500, 1512) [(1480, 1500)]).low ≤ r)) :=
  ⟨by decide, foldDay_same_date 3 (1500, 1512) [(1480, 1500)] (by decide)⟩

/-- Overwriting a row in place keeps the date index sequence unchanged. -/
theorem map_fst_overwrite (l : List (Nat × List Value)) (date : Nat) (row : List Value) :
    (l.map (fun p => if p.1 = date then (date, row) else p)).map Prod.fst
      = l.map Prod.fst := by
  rw [List.map_map]
  apply List.map_congr_left
  intro p _
  by_cases hp : p.1 = date <;> simp [hp]

/-- A df.loc insert-or-overwrite keeps the date index free of
duplicates. -/
theorem nodup_setRow (f : Frame) (date : Nat) (row : List Value)
    (h : (f.rows.map Prod.fst).Nodup) :
    ((f.setRow date row).rows.map Prod.fst).Nodup := by
  simp only [Frame.setRow]
  by_cases ha : f.rows.any (fun p => decide (p.1 = date)) = true
  · rw [if_pos ha, map_fst_overwrite]
    exact h
  · rw [if_neg ha, List.map_append]
    have hnotin : date ∉ f.rows.map Prod.fst := by
      intro hd
      rcases List.mem_map.mp hd with ⟨p, hp, hpd⟩
      exact ha (List.any_eq_true.mpr ⟨p, hp, by simp [hpd]⟩)
    simp [List.nodup_append, h, hnotin]

/-- Every dataframe built from the empty one by df.loc merges has a
duplicate-free date index. -/
theorem nodup_buildFoldl (bs : List (Nat × List Int)) :
    ∀ f : Frame, (f.rows.map Prod.fst).Nodup →
      ((bs.foldl (fun f p => f.setIntRow p.1 p.2) f).rows.map Prod.fst).Nodup := by
  induction bs with
  | nil => intro f h; exact h
  | cons p t ih =>
    intro f h
    rw [List.foldl_cons]
    exact ih _ (nodup_setRow f p.1 _ h)

/-- Casting a cell to float always yields a float cell. -/
theorem isFloat_toFloat (v : Value) : v.toFloat.isFloat = true := by
  cases v <;> rfl

/-- C6: after the end-of-run sort_index and astype(float) on a dataframe
built by df.loc merges from the empty one, the date index is strictly
ascending (hence duplicate-free) and every stored cell is a float. -/
theorem finalize_order_sorted (bars : List (Nat × List Int)) :
    ((buildFrame bars).sortIndex.astype.rows.map Prod.fst).Pairwise (· < ·) ∧
    ∀ p ∈ (buildFrame bars).sortIndex.astype.rows, ∀ v ∈ p.2, v.isFloat = true := by
  have hnodup : ((buildFrame bars).rows.map Prod.fst).Nodup :=
    nodup_buildFoldl bars emptyFrame (by simp [emptyFrame])
  have hperm : ((buildFrame bars).rows.mergeSort
      (fun a b => decide (a.1 ≤ b.1))).Perm (buildFrame bars).rows :=
    List.mergeSort_perm _ _
  have hnodup2 : (((buildFrame bars).rows.mergeSort
      (fun a b => decide (a.1 ≤ b.1))).map Prod.fst).Nodup :=
    ((hperm.map Prod.fst).symm).nodup hnodup
  have htrans : ∀ a b c : Nat × List Value,
      decide (a.1 ≤ b.1) = true → decide (b.1 ≤ c.1) = true →
      decide (a.1 ≤ c.1) = true := by
    intro a b c hab hbc
    simp only [decide_eq_true_eq] at hab hbc ⊢
    omega
  have htotal : ∀ a b : Nat × List Value,
      (decide (a.1 ≤ b.1) || decide (b.1 ≤ a.1)) = true := by
    intro a b
    simp only [Bool.or_eq_true, decide_eq_true_eq]
    omega
  have hsorted := List.sorted_mergeSort htrans htotal (buildFrame bars).rows
  have hle : ((buildFrame bars).rows.mergeSort
      (fun a b => decide (a.1 ≤ b.1))).Pairwise (fun a b => a.1 ≤ b.1) :=
    hsorted.imp (fun h => by simpa using h)
  have hne : ((buildFrame bars).rows.mergeSort
      (fun a b => decide (a.1 ≤ b.1))).Pairwise (fun a b => a.1 ≠ b.1) :=
    List.pairwise_map.mp hnodup2
  have hlt : ((buildFrame bars).rows.mergeSort
      (fun a b => decide (a.1 ≤ b.1))).Pairwise (fun a b => a.1 < b.1) :=
    (hle.and hne).imp (fun h => lt_of_le_of_ne h.1 h.2)
  constructor
  · have hkeys : (buildFrame bars).sortIndex.astype.rows.map Prod.fst
        = ((buildFrame bars).rows.mergeSort (fun a b => decide (a.1 ≤ b.1))).map
            Prod.fst := by
      simp only [Frame.sortIndex, Frame.astype, List.map_map]
      rfl
    rw [hkeys]
    exact List.pairwise_map.mpr hlt
  · intro p hp v hv
    simp only [Frame.astype, Frame.sortIndex] at hp
    rcases List.mem_map.mp hp with ⟨q, _, rfl⟩
    rcases List.mem_map.mp hv with ⟨u, _, rfl⟩
    exact isFloat_toFloat u

/-- Decimal digits below ten print as digit characters and read back to
themselves. -/
theorem digitChar_ok : ∀ d, d < 10 →
    (Nat.digitChar d).isDigit = true ∧ charToDigit (Nat.digitChar d) = d := by
  decide

/-- Decimal printing of a natural number parses back to the same
number. -/
theorem parseNat_natToChars (n : Nat) : parseNat (natToChars n) = some n := by
  by_cases h : n = 0
  · subst h
    decide
  · have hne : Nat.digits 10 n ≠ [] := Nat.digits_ne_nil_iff_ne_zero.mpr h
    rw [natToChars, if_neg h]
    have hcs : ((Nat.digits 10 n).reverse.map Nat.digitChar) ≠ [] := by
      simp [hne]
    have hall : ((Nat.digits 10 n).reverse.map Nat.digitChar).all Char.isDigit = true := by
      rw [List.all_eq_true]
      intro c hc
      rcases List.mem_map.mp hc with ⟨d, hd, rfl⟩
      exact (digitChar_ok d (Nat.digits_lt_base (by norm_num) (List.mem_reverse.mp hd))).1
    rw [parseNat, if_neg hcs, if_pos hall]
    congr 1
    rw [List.map_map]
    have hid : (Nat.digits 10 n).reverse.map (charToDigit ∘ Nat.digitChar)
        = (Nat.digits 10 n).reverse := by
      conv_rhs => rw [← List.map_id ((Nat.digits 10 n).reverse)]
      apply List.map_congr_left
      intro d hd
      simpa using
        (digitChar_ok d (Nat.digits_lt_base (by norm_num) (List.mem_reverse.mp hd))).2
    rw [hid, List.reverse_reverse, Nat.ofDigits_digits]

/-- The decimal print of a natural number starts with a digit
character. -/
theorem natToChars_shape (n : Nat) :
    ∃ c cs, natToChars n = c :: cs ∧ c.isDigit = true := by
  by_cases h : n = 0
  · subst h
    exact ⟨'0', [], rfl, by decide⟩
  · have hne : Nat.digits 10 n ≠ [] := Nat.digits_ne_nil_iff_ne_zero.mpr h
    have hrne : (Nat.digits 10 n).reverse ≠ [] := by simp [hne]
    obtain ⟨d, ds, hds⟩ := List.exists_cons_of_ne_nil hrne
    have hd10 : d < 10 :=
      Nat.digits_lt_base (by norm_num)
        (List.mem_reverse.mp (hds ▸ List.mem_cons_self d ds))
    refine ⟨Nat.digitChar d, ds.map Nat.digitChar, ?_, (digitChar_ok d hd10).1⟩
    rw [natToChars, if_neg h, hds, List.map_cons]

/-- Decimal printing of an integer parses back to the same integer. -/
theorem parseInt_intToChars (x : Int) : parseInt (intToChars x) = some x := by
  rw [intToChars]
  by_cases h : x < 0
  · rw [if_pos h]
    simp only [parseInt, if_true]
    rw [parseNat_natToChars]
    show some (-(x.natAbs : Int)) = some x
    have hx : -(x.natAbs : Int) = x := by omega
    rw [hx]
  · rw [if_neg h]
    obtain ⟨c, cs, hcons, hdig⟩ := natToChars_shape x.natAbs
    rw [hcons]
    have hcne : ¬(c = '-') := by
      intro hc
      rw [hc] at hdig
      exact absurd hdig (by decide)
    simp only [parseInt]
    rw [if_neg hcne, ← hcons, parseNat_natToChars]
    show some ((x.natAbs : Int)) = some x
    have hx : ((x.natAbs : Int)) = x := by omega
    rw [hx]

/-- The CSV text of a float cell parses back to the same float cell. -/
theorem parseCell_toCell_float (x : Int) :
    parseCell (Value.toCell (.floatV x)) = some (.floatV x) := by
  show parseCell (intToChars x ++ ['.', '0']) = some (.floatV x)
  have hrev : (intToChars x ++ ['.', '0']).reverse
      = '0' :: '.' :: (intToChars x).reverse := by
    simp
  simp only [parseCell, hrev, List.reverse_reverse, parseInt_intToChars]
  rfl

/-- The CSV texts of a list of float cells parse back to the same
cells. -/
theorem parseCells_map_toCell (vals : List Value)
    (h : ∀ v ∈ vals, v.isFloat = true) :
    parseCells (vals.map Value.toCell) = some vals := by
  induction vals with
  | nil => rfl
  | cons v t ih =>
    have hv : v.isFloat = true := h v (List.mem_cons_self _ _)
    obtain ⟨x, rfl⟩ : ∃ x, v = .floatV x := by
      cases v with
      | intV n => simp [Value.isFloat] at hv
      | floatV x => exact ⟨x, rfl⟩
    rw [List.map_cons]
    simp only [parseCells, parseCell_toCell_float,
      ih (fun u hu => h u (List.mem_cons_of_mem _ hu))]

/-- One CSV data line of a float-valued row parses back to the same
indexed row. -/
theorem parseLine_row (d : Nat) (vals : List Value)
    (h : ∀ v ∈ vals, v.isFloat = true) :
    parseLine (natToChars d :: vals.map Value.toCell) = some (d, vals) := by
  simp only [parseLine, parseNat_natToChars, parseCells_map_toCell vals h]

/-- The CSV body of float-valued rows parses back to the same rows. -/
theorem parseLines_rows (rows : List (Nat × List Value))
    (h : ∀ p ∈ rows, ∀ v ∈ p.2, v.isFloat = true) :
    parseLines (rows.map (fun p => natToChars p.1 :: p.2.map Value.toCell))
      = some rows := by
  induction rows with
  | nil => rfl
  | cons p t ih =>
    rw [List.map_cons]
    simp only [parseLines, parseLine_row p.1 p.2 (h p (List.mem_cons_self _ _)),
      ih (fun q hq => h q (List.mem_cons_of_mem _ hq))]

/-- Reading back the CSV written for a float-valued dataframe recovers the
dataframe. -/
theorem parseCsv_to_csv (f : Frame)
    (h : ∀ p ∈ f.rows, ∀ v ∈ p.2, v.isFloat = true) :
    parseCsv f.to_csv = some f := by
  simp only [Frame.to_csv, parseCsv, parseLines_rows f.rows h]
  have hcols : (f.cols.map String.data).map String.mk = f.cols := by
    rw [List.map_map]
    conv_rhs => rw [← List.map_id f.cols]
    apply List.map_congr_left
    intro s _
    rfl
  rw [hcols]

/-- C8: for a nonempty dataframe whose cells are all floats (as any
finalized or previously loaded dataframe is), save_df followed by
get_panda on the written file reproduces an equal dataframe: same dates,
same numeric values. -/
theorem save_load_roundtrip (f : Frame) (hne : f.rows ≠ [])
    (h : ∀ p ∈ f.rows, ∀ v ∈ p.2, v.isFloat = true) :
    get_panda (some (save_df f)) false = .ok f := by
  simp [get_panda, save_df, parseCsv_to_csv f h]

/-- A concrete one-row float-valued dataframe for the round-trip
witness. -/
def roundFrame : Frame :=
  ⟨["Open", "High", "Low", "Close", "Volume"],
    [(3, [.floatV 1480, .floatV 1512, .floatV 1480, .floatV 1512, .floatV 2])]⟩

/-- Witness for the C8 theorem on a concrete one-row dataframe. -/
theorem save_load_roundtrip_witness :
    (roundFrame.rows ≠ [] ∧ ∀ p ∈ roundFrame.rows, ∀ v ∈ p.2, v.isFloat = true) ∧
    get_panda (some (save_df roundFrame)) false = .ok roundFrame :=
  ⟨⟨by decide, by decide⟩, save_load_roundtrip roundFrame (by decide) (by decide)⟩
